import Mathlib

/-!
Verification of the httpie-oapi completion core against its specification.

The development shallowly embeds the Rust sources:
  - src/tokens.rs            (shell-word tokenizer with position tracking)
  - src/command/complete.rs  (the completion decision procedure)
  - src/openapi/endpoint.rs  (endpoint model, filtering, parameter extraction)
  - src/openapi/param.rs     (parameter model and rendering)
  - src/openapi/reference.rs (schema-pointer resolution)

Rust strings are modelled as lists of characters (the inputs of interest are
ASCII, where byte offsets and character offsets coincide).  The external
shell-words crate used by tokens.rs is embedded by its published state
machine (states Delimiter, Backslash, Unquoted, UnquotedBackslash,
SingleQuoted, DoubleQuoted, DoubleQuotedBackslash; an unterminated quote or
dangling double-quoted escape is a parse error).
-/

namespace HttpieOapi

/-- Rust string slices, modelled as lists of characters. -/
abbrev Str := List Char

/-- Rust str::find for a literal pattern: the first index at which the
pattern occurs as a contiguous substring, none if it never occurs.
(str::find returns Some(0) for the empty pattern.) -/
def findSub : Str → Str → Option Nat
  | [], pat => if pat = [] then some 0 else none
  | hay@(_ :: t), pat =>
    if pat.isPrefixOf hay then some 0 else (findSub t pat).map (· + 1)

/-- Rust str::contains for a literal pattern. -/
def containsSub (hay pat : Str) : Bool := (findSub hay pat).isSome

/-! ## shell_words::split (external crate used by tokens.rs) -/

/-- The single-quote character (code 39), named to keep quoting characters
out of the Lean source text. -/
def squote : Char := Char.ofNat 39

/-- The double-quote character (code 34). -/
def dquote : Char := Char.ofNat 34

/-- The backtick character (code 96). -/
def btick : Char := Char.ofNat 96

/-- The states of the shell-words splitting state machine. -/
inductive SplitState where
  | delimiter
  | backslash
  | unquoted
  | unquotedBackslash
  | singleQuoted
  | doubleQuoted
  | doubleQuotedBackslash
deriving DecidableEq

/-- The shell-words splitting loop: current state, word accumulator, words
accumulator, remaining input.  Returns none on a parse error (unterminated
single or double quote, or end of input inside a double-quoted escape). -/
def splitGo : SplitState → Str → List Str → Str → Option (List Str)
  | .delimiter, _, words, [] => some words
  | .delimiter, w, words, c :: rest =>
    if c = squote then splitGo .singleQuoted w words rest
    else if c = dquote then splitGo .doubleQuoted w words rest
    else if c = '\\' then splitGo .backslash w words rest
    else if c = '\t' ∨ c = ' ' ∨ c = '\n' then splitGo .delimiter w words rest
    else splitGo .unquoted (w ++ [c]) words rest
  | .backslash, w, words, [] => some (words ++ [w ++ ['\\']])
  | .backslash, w, words, c :: rest =>
    if c = '\n' then splitGo .delimiter w words rest
    else splitGo .unquoted (w ++ [c]) words rest
  | .unquoted, w, words, [] => some (words ++ [w])
  | .unquoted, w, words, c :: rest =>
    if c = squote then splitGo .singleQuoted w words rest
    else if c = dquote then splitGo .doubleQuoted w words rest
    else if c = '\\' then splitGo .unquotedBackslash w words rest
    else if c = '\t' ∨ c = ' ' ∨ c = '\n' then splitGo .delimiter [] (words ++ [w]) rest
    else splitGo .unquoted (w ++ [c]) words rest
  | .unquotedBackslash, w, words, [] => some (words ++ [w ++ ['\\']])
  | .unquotedBackslash, w, words, c :: rest =>
    if c = '\n' then splitGo .unquoted w words rest
    else splitGo .unquoted (w ++ [c]) words rest
  | .singleQuoted, _, _, [] => none
  | .singleQuoted, w, words, c :: rest =>
    if c = squote then splitGo .unquoted w words rest
    else splitGo .singleQuoted (w ++ [c]) words rest
  | .doubleQuoted, _, _, [] => none
  | .doubleQuoted, w, words, c :: rest =>
    if c = dquote then splitGo .unquoted w words rest
    else if c = '\\' then splitGo .doubleQuotedBackslash w words rest
    else splitGo .doubleQuoted (w ++ [c]) words rest
  | .doubleQuotedBackslash, _, _, [] => none
  | .doubleQuotedBackslash, w, words, c :: rest =>
    if c = '\n' then splitGo .doubleQuoted w words rest
    else if c = '$' ∨ c = btick ∨ c = dquote ∨ c = '\\' then
      splitGo .doubleQuoted (w ++ [c]) words rest
    else splitGo .doubleQuoted (w ++ ['\\', c]) words rest

/-- shell_words::split: shell-word splitting of a command line; none is the
crate's ParseError (mismatched quotes). -/
def splitWords (line : Str) : Option (List Str) :=
  splitGo .delimiter [] [] line

/-! ## tokens.rs -/

/-- A positioned word of the command line (struct Token in tokens.rs).
The source's field name end is a Lean keyword; it is called stop here. -/
structure Token where
  text : Str
  start : Nat
  stop : Nat
deriving DecidableEq

/-- The offset-assignment loop inside Tokens::new: each word is located by
searching for it in the line from the previous token's end; a failed search
falls back to offset 0 of that remainder (unwrap_or(0)). -/
def placeTokens : Str → Nat → List Str → List Token
  | _, _, [] => []
  | line, current_pos, w :: ws =>
    let start := ((findSub (line.drop current_pos) w).getD 0) + current_pos
    let stop := start + w.length
    ⟨w, start, stop⟩ :: placeTokens line stop ws

/-- struct Tokens in tokens.rs. -/
structure Tokens where
  tokens : List Token
  cursor_pos : Nat
deriving DecidableEq

/-- Tokens::new: split the line with shell_words (an error degrades to no
words via unwrap_or_default) and assign offsets. -/
def Tokens.new (line : Str) (cursor_pos : Nat) : Tokens :=
  ⟨placeTokens line 0 ((splitWords line).getD []), cursor_pos⟩

/-- Tokens::current_token: the first token whose inclusive span contains the
cursor position. -/
def Tokens.current_token (self : Tokens) : Option Token :=
  self.tokens.find? fun token =>
    decide (self.cursor_pos ≥ token.start) && decide (self.cursor_pos ≤ token.stop)

/-- Tokens::find_token_starting_with. -/
def Tokens.find_token_starting_with (self : Tokens) (pre : Str) : Option Token :=
  self.tokens.find? fun token => pre.isPrefixOf token.text

/-- Tokens::has_token_starting_with. -/
def Tokens.has_token_starting_with (self : Tokens) (text : Str) : Bool :=
  self.tokens.any fun t => text.isPrefixOf t.text

/-! ## param.rs -/

/-- enum ParamSource. -/
inductive ParamSource where
  | query
  | body
  | path
  | header
  | form
deriving DecidableEq

/-- ParamSource::httpie_operator. -/
def ParamSource.httpie_operator : ParamSource → Str
  | .body | .form | .path => ['=']
  | .query => ['=', '=']
  | .header => [':']

/-- ParamSource::httpie_param_prefix. -/
def ParamSource.httpie_param_pre : ParamSource → Str
  | .path => [':']
  | _ => []

/-- struct Param. -/
structure Param where
  name : Str
  required : Bool
  source : ParamSource
  description : Option Str
deriving DecidableEq

/-- Param::httpie_param_format. -/
def Param.httpie_param_format (self : Param) : Str :=
  ParamSource.httpie_param_pre self.source ++ self.name ++
    ParamSource.httpie_operator self.source

/-- Param::fish_complete_format: rendering plus tab plus description-or-name,
the description bracketed when the parameter is optional. -/
def Param.fish_complete_format (self : Param) : Str :=
  let desc := self.description.getD self.name
  let desc := if self.required then desc else '[' :: desc ++ [']']
  self.httpie_param_format ++ '\t' :: desc

/-! ## endpoint.rs: the endpoint model -/

/-- enum Method (method.rs). -/
inductive Method where
  | get
  | post
  | put
  | delete
  | head
  | patch
  | options
deriving DecidableEq

/-- struct EndPoint. -/
structure EndPoint where
  method : Method
  path : Str
  summary : Option Str
  params : List Param
deriving DecidableEq

/-- The comparison underlying sort_by_key(param (not param.required)): key a
less-or-equal key b in the Bool order false before true. -/
def leReq (a b : Param) : Bool := a.required || !b.required

/-- EndPoint::get_params_sort: a stable sort placing required parameters
before optional ones (Rust's sort_by_key is a stable sort; mergeSort is the
stable sort with the same comparison). -/
def EndPoint.get_params_sort (self : EndPoint) : List Param :=
  self.params.mergeSort leReq

/-- EndPoint::fish_complete_format. -/
def EndPoint.fish_complete_format (self : EndPoint) (base_url : Str) : Str :=
  let summary := self.summary.getD self.path
  base_url ++ self.path ++ '\t' :: summary

/-- struct EndPoints (a newtype over a vector of endpoints). -/
structure EndPoints where
  val : List EndPoint
deriving DecidableEq

/-- EndPoints::filter: the endpoints whose path contains the argument as a
substring, in collection order. -/
def EndPoints.filter (self : EndPoints) (path : Str) : List EndPoint :=
  self.val.filter fun endpoint => containsSub endpoint.path path

/-- EndPoints::find: the first endpoint with exactly the argument path. -/
def EndPoints.find (self : EndPoints) (path : Str) : Option EndPoint :=
  self.val.find? fun e => e.path = path

/-- EndPoints::all. -/
def EndPoints.all (self : EndPoints) : List EndPoint :=
  self.val

/-! ## complete.rs: the completion engine

ApiSpec::get_endpoints performs memoized cache/network I/O and always
yields the API's endpoint collection; the engine is embedded as a pure
function of the tokenized line and the registered APIs, each carrying its
endpoint collection. -/

/-- struct ApiSpec (api_spec.rs), with the endpoint collection it resolves
to in place of the lazily-populated cache cell. -/
structure ApiSpec where
  name : Str
  base_url : Str
  endpoints : EndPoints

/-- The matching loop of CompleteCommand::run step 1: the first API, in
registry order, some token of the line starts with whose base URL, together
with the first such token. -/
def findMatch (tokens : Tokens) : List ApiSpec → Option (ApiSpec × Token)
  | [] => none
  | api :: rest =>
    match tokens.find_token_starting_with api.base_url with
    | some token => some (api, token)
    | none => findMatch tokens rest

/-- Step 4 of CompleteCommand::run (the fall-through path): strip the base
URL from the matched token, filter endpoints by that fragment, and emit each
sorted parameter not already started by some token. -/
def completeParams (tokens : Tokens) (api : ApiSpec) (tok : Token) : List Str :=
  let path := if api.base_url.isPrefixOf tok.text
              then tok.text.drop api.base_url.length else tok.text
  (api.endpoints.filter path).flatMap fun ep =>
    (ep.get_params_sort.filter fun param =>
      !(tokens.has_token_starting_with param.name)).map Param.fish_complete_format

/-- CompleteCommand::run as a pure function from the tokenized line and the
registered APIs to the emitted completion lines, in order. -/
def complete (tokens : Tokens) (apis : List ApiSpec) : List Str :=
  match findMatch tokens apis with
  | none => apis.map fun api => api.base_url ++ '/' :: '\t' :: api.name
  | some (api, tok) =>
    match tokens.current_token with
    | some current_token =>
      if api.base_url.isPrefixOf current_token.text then
        api.endpoints.all.map fun ep => ep.fish_complete_format api.base_url
      else completeParams tokens api tok
    | none => completeParams tokens api tok

/-! ## The openapiv3 document fragments the resolver inspects

Only the parts the code destructs are modelled; schema kinds other than
Type, and types other than Object, are collapsed into single constructors
because the code treats them all through the same wildcard arm. -/

/-- SchemaData, restricted to the one field the code reads. -/
structure SchemaData where
  description : Option Str
deriving DecidableEq

mutual

/-- openapiv3::Schema. -/
inductive Schema where
  | mk (schema_data : SchemaData) (schema_kind : SchemaKind)

/-- openapiv3::SchemaKind; the kinds other than Type (OneOf, AllOf, AnyOf,
Not, Any) are collapsed into other. -/
inductive SchemaKind where
  | type (t : TypeK)
  | other

/-- openapiv3::Type; the non-object types (String, Number, Integer, Boolean,
Array) are collapsed into nonObject. -/
inductive TypeK where
  | object (o : ObjectType)
  | nonObject

/-- openapiv3::ObjectType: an ordered property map (IndexMap, modelled as an
association list in insertion order) and the required-name list. -/
inductive ObjectType where
  | mk (properties : List (Str × SchemaOrRef)) (required : List Str)

/-- openapiv3::ReferenceOr of a boxed schema. -/
inductive SchemaOrRef where
  | item (s : Schema)
  | reference (r : Str)

end

/-- Projection: Schema.schema_data. -/
def Schema.schema_data : Schema → SchemaData
  | .mk d _ => d

/-- Projection: Schema.schema_kind. -/
def Schema.schema_kind : Schema → SchemaKind
  | .mk _ k => k

/-- Projection: ObjectType.properties. -/
def ObjectType.properties : ObjectType → List (Str × SchemaOrRef)
  | .mk ps _ => ps

/-- Projection: ObjectType.required. -/
def ObjectType.required : ObjectType → List Str
  | .mk _ r => r

/-- Components, restricted to the schemas section (an IndexMap, modelled as
an association list; get is the first binding of the key). -/
structure Components where
  schemas : List (Str × SchemaOrRef)

/-- The OpenAPI document as reference resolution sees it. -/
structure OpenAPI where
  components : Option Components

/-! ## reference.rs -/

/-- The two failure messages of resolve_schema_reference (anyhow errors in
the source). -/
inductive ResolveErr where
  | notSchemaRef
  | notFound
deriving DecidableEq

/-- The literal pointer head the resolver demands. -/
def schemasHead : Str := "#/components/schemas/".toList

/-- Rust str::trim_start_matches for a fixed non-empty pattern: strips every
leading occurrence of the pattern, not only the first.  Fuel-indexed on the
input length (each strip removes at least one character). -/
def trimGo : Nat → Str → Str → Str
  | 0, _, s => s
  | Nat.succ n, pat, s =>
    if pat ≠ [] ∧ pat.isPrefixOf s then trimGo n pat (s.drop pat.length) else s

/-- trim_start_matches. -/
def trimStartMatches (pat s : Str) : Str := trimGo s.length pat s

/-- The schemas-section lookup inside resolve_schema_reference:
components.schemas.get(name). -/
def lookupSchema (spec : OpenAPI) (name : Str) : Option SchemaOrRef :=
  spec.components.bind fun components =>
    (components.schemas.find? fun kv => kv.fst = name).map Prod.snd

/-- resolve_schema_reference: only pointers starting with
schemasHead are accepted; the remaining name is looked up in the schemas
section; an entry that is itself a reference is rejected. -/
def resolve_schema_reference (reference : Str) (spec : OpenAPI) :
    Except ResolveErr Schema :=
  if !(schemasHead.isPrefixOf reference) then .error .notSchemaRef
  else
    let schema_name := trimStartMatches schemasHead reference
    match lookupSchema spec schema_name with
    | some (.item schema) => .ok schema
    | some (.reference _) => .error .notFound
    | none => .error .notFound

/-! ## param.rs: Param::try_from_schema, and endpoint.rs: extraction -/

/-- The description an object property contributes: the property schema's
own description when the property is a direct item, none for a reference. -/
def propertyDescription : SchemaOrRef → Option Str
  | .item s => s.schema_data.description
  | .reference _ => none

/-- The Param one object property becomes in Param::try_from_schema. -/
def paramOfProperty (o : ObjectType) (nv : Str × SchemaOrRef) : Param :=
  ⟨nv.fst, o.required.contains nv.fst, .body, propertyDescription nv.snd⟩

/-- Param::try_from_schema: an object-type schema yields one Body-sourced
Param per direct property; any other schema kind is an error. -/
def Param.try_from_schema (schema : Schema) : Except Str (List Param) :=
  match schema.schema_kind with
  | .type (.object object_type) =>
    .ok (object_type.properties.map (paramOfProperty object_type))
  | _ => .error "Schema must be an object type".toList

/-- EndPoints::extract_referenced_parameter: resolve the pointer through the
schemas section, convert, and keep only the first parameter. -/
def extract_referenced_parameter (reference : Str) (spec : OpenAPI) :
    Option Param :=
  match resolve_schema_reference reference spec with
  | .error _ => none
  | .ok schema =>
    match Param.try_from_schema schema with
    | .error _ => none
    | .ok params => params.head?

/-- EndPoints::extract_schema_parameters. -/
def extract_schema_parameters (schema : SchemaOrRef) (spec : OpenAPI) :
    List Param :=
  match schema with
  | .item s => (Param.try_from_schema s).toOption.getD []
  | .reference r =>
    match resolve_schema_reference r spec with
    | .ok resolved_schema => (Param.try_from_schema resolved_schema).toOption.getD []
    | .error _ => []

/-- openapiv3::MediaType, restricted to the schema field. -/
structure MediaType where
  schema : Option SchemaOrRef

/-- openapiv3::RequestBody, restricted to the content map (an IndexMap,
modelled as an association list). -/
structure RequestBody where
  content : List (Str × MediaType)

/-- openapiv3::ReferenceOr of a RequestBody. -/
inductive RequestBodyOrRef where
  | item (b : RequestBody)
  | reference (r : Str)

/-- The content key the code looks up. -/
def appJson : Str := "application/json".toList

/-- EndPoints::extract_request_body_parameters: a direct body with an
application/json media type whose schema is present contributes that
schema's parameters; a referenced body contributes nothing. -/
def extract_request_body_parameters (request_body : RequestBodyOrRef)
    (spec : OpenAPI) : List Param :=
  match request_body with
  | .item body =>
    match (body.content.find? fun kv => kv.fst = appJson).map Prod.snd with
    | some media_type =>
      match media_type.schema with
      | some schema => extract_schema_parameters schema spec
      | none => []
    | none => []
  | .reference _ => []

/-! ## The stable two-bucket characterization of get_params_sort -/

/-- The comparison is transitive. -/
lemma leReq_trans (a b c : Param) (hab : leReq a b = true) (hbc : leReq b c = true) :
    leReq a c = true := by
  cases ha : a.required <;> cases hb : b.required <;> cases hc : c.required <;>
    simp_all [leReq]

/-- The comparison is total. -/
lemma leReq_total (a b : Param) : (leReq a b || leReq b a) = true := by
  cases ha : a.required <;> cases hb : b.required <;> simp_all [leReq]

/-- A list of required parameters is pairwise sorted. -/
lemma pairwise_of_all_required (l : List Param)
    (h : ∀ p ∈ l, p.required = true) :
    l.Pairwise (fun a b => leReq a b = true) := by
  induction l with
  | nil => exact List.Pairwise.nil
  | cons a t ih =>
    refine List.pairwise_cons.mpr ⟨fun b _ => ?_, ih fun p hp => h p (by simp [hp])⟩
    simp [leReq, h a (by simp)]

/-- A list of optional parameters is pairwise sorted. -/
lemma pairwise_of_all_optional (l : List Param)
    (h : ∀ p ∈ l, p.required = false) :
    l.Pairwise (fun a b => leReq a b = true) := by
  induction l with
  | nil => exact List.Pairwise.nil
  | cons a t ih =>
    refine List.pairwise_cons.mpr ⟨fun b hb => ?_, ih fun p hp => h p (by simp [hp])⟩
    simp [leReq, h b (by simp [hb])]

/-- A pairwise-sorted list is its required elements followed by its optional
ones. -/
lemma pairwise_split (m : List Param)
    (h : m.Pairwise (fun a b => leReq a b = true)) :
    m = m.filter (fun p => p.required) ++ m.filter (fun p => !p.required) := by
  induction m with
  | nil => rfl
  | cons a t ih =>
    rcases List.pairwise_cons.mp h with ⟨ha, ht⟩
    cases hreq : a.required with
    | true =>
      simp only [List.filter_cons, hreq, Bool.not_true]
      simpa using ih ht
    | false =>
      have hall : ∀ b ∈ t, b.required = false := by
        intro b hb
        have := ha b hb
        simp only [leReq, hreq, Bool.false_or, Bool.not_eq_true'] at this
        exact this
      have h1 : t.filter (fun p => p.required) = [] :=
        List.filter_eq_nil_iff.mpr (by intro b hb; simp [hall b hb])
      have h2 : t.filter (fun p => !p.required) = t :=
        List.filter_eq_self.mpr (by intro b hb; simp [hall b hb])
      simp [List.filter_cons, hreq, h1, h2]

/-- Stability for one bucket: filtering the merge sort by a predicate that
the comparison never reorders gives the filter of the input. -/
lemma filter_mergeSort_eq (l : List Param) (p : Param → Bool)
    (hpw : (l.filter p).Pairwise (fun a b => leReq a b = true)) :
    (l.mergeSort leReq).filter p = l.filter p := by
  have hsub : (l.filter p).Sublist (l.mergeSort leReq) :=
    List.sublist_mergeSort leReq_trans leReq_total hpw (List.filter_sublist l)
  have hself : (l.filter p).filter p = l.filter p := by
    refine List.filter_eq_self.mpr ?_
    intro a ha
    exact (List.mem_filter.mp ha).2
  have hsub2 : (l.filter p).Sublist ((l.mergeSort leReq).filter p) := by
    have := List.Sublist.filter p hsub
    rwa [hself] at this
  have hlen : (l.filter p).length = ((l.mergeSort leReq).filter p).length := by
    rw [← List.countP_eq_length_filter, ← List.countP_eq_length_filter]
    exact (List.Perm.countP_eq p (List.mergeSort_perm l leReq)).symm
  exact (hsub2.eq_of_length hlen).symm

/-- get_params_sort is the required parameters, in order, followed by the
optional parameters, in order. -/
lemma get_params_sort_eq (e : EndPoint) :
    e.get_params_sort =
      e.params.filter (fun p => p.required) ++ e.params.filter (fun p => !p.required) := by
  have hpw : (e.params.mergeSort leReq).Pairwise (fun a b => leReq a b = true) :=
    List.sorted_mergeSort leReq_trans leReq_total e.params
  have hsplit := pairwise_split _ hpw
  have hreq : (e.params.mergeSort leReq).filter (fun p => p.required) =
      e.params.filter (fun p => p.required) :=
    filter_mergeSort_eq _ _ (pairwise_of_all_required _ (by
      intro q hq; exact (List.mem_filter.mp hq).2))
  have hopt : (e.params.mergeSort leReq).filter (fun p => !p.required) =
      e.params.filter (fun p => !p.required) :=
    filter_mergeSort_eq _ _ (pairwise_of_all_optional _ (by
      intro q hq
      have := (List.mem_filter.mp hq).2
      simpa using this))
  calc e.get_params_sort
      = e.params.mergeSort leReq := rfl
    _ = _ ++ _ := hsplit
    _ = _ := by rw [hreq, hopt]

/-- Claim C8: EndPoint.get_params_sort is idempotent (an endpoint whose
parameter list is already the sorted output sorts to the same list) and
stable: it never reorders two required parameters, nor two optional ones,
relative to each other (the required sublist and the optional sublist of the
output equal those of the input). -/
theorem getParamsSort_idempotent_and_stable (e : EndPoint) :
    EndPoint.get_params_sort ⟨e.method, e.path, e.summary, e.get_params_sort⟩ =
        e.get_params_sort
    ∧ e.get_params_sort.filter (fun p => p.required) =
        e.params.filter (fun p => p.required)
    ∧ e.get_params_sort.filter (fun p => !p.required) =
        e.params.filter (fun p => !p.required) := by
  have hsorted : (e.get_params_sort).Pairwise (fun a b => leReq a b = true) :=
    List.sorted_mergeSort leReq_trans leReq_total e.params
  refine ⟨?_, ?_, ?_⟩
  · show (e.get_params_sort).mergeSort leReq = e.get_params_sort
    exact List.mergeSort_of_sorted hsorted
  · rw [get_params_sort_eq, List.filter_append]
    have h1 : (e.params.filter (fun p => p.required)).filter (fun p => p.required) =
        e.params.filter (fun p => p.required) :=
      List.filter_eq_self.mpr (fun a ha => (List.mem_filter.mp ha).2)
    have h2 : (e.params.filter (fun p => !p.required)).filter (fun p => p.required) = [] :=
      List.filter_eq_nil_iff.mpr (by
        intro a ha
        have := (List.mem_filter.mp ha).2
        simp_all)
    rw [h1, h2, List.append_nil]
  · rw [get_params_sort_eq, List.filter_append]
    have h1 : (e.params.filter (fun p => p.required)).filter (fun p => !p.required) = [] :=
      List.filter_eq_nil_iff.mpr (by
        intro a ha
        have := (List.mem_filter.mp ha).2
        simp_all)
    have h2 : (e.params.filter (fun p => !p.required)).filter (fun p => !p.required) =
        e.params.filter (fun p => !p.required) :=
      List.filter_eq_self.mpr (fun a ha => (List.mem_filter.mp ha).2)
    rw [h1, h2, List.nil_append]

/-! ## The completion engine's three branches (claims C1, C2, C3) -/

/-- The matched token of a successful registry scan really starts with the
matched API's base URL. -/
lemma findMatch_some_isPrefixOf (tokens : Tokens) (apis : List ApiSpec)
    (api : ApiSpec) (tok : Token) (h : findMatch tokens apis = some (api, tok)) :
    api.base_url.isPrefixOf tok.text = true := by
  induction apis with
  | nil => simp [findMatch] at h
  | cons a rest ih =>
    unfold findMatch at h
    cases hf : tokens.find_token_starting_with a.base_url with
    | some t =>
      rw [hf] at h
      cases h
      have hf2 : tokens.tokens.find?
          (fun token => api.base_url.isPrefixOf token.text) = some tok := hf
      have h3 := List.find?_some hf2
      exact h3
    | none =>
      rw [hf] at h
      exact ih h

/-- When no token starts with an API's base URL, the scan skips it. -/
lemma findMatch_none (tokens : Tokens) (apis : List ApiSpec)
    (h : ∀ a ∈ apis, tokens.has_token_starting_with a.base_url = false) :
    findMatch tokens apis = none := by
  induction apis with
  | nil => rfl
  | cons a rest ih =>
    unfold findMatch
    have hfa : tokens.find_token_starting_with a.base_url = none := by
      refine List.find?_eq_none.mpr ?_
      intro t ht hpt
      have hany : tokens.has_token_starting_with a.base_url = true := by
        unfold Tokens.has_token_starting_with
        exact List.any_eq_true.mpr ⟨t, ht, hpt⟩
      rw [h a (by simp)] at hany
      exact Bool.false_ne_true hany
    rw [hfa]
    exact ih fun x hx => h x (by simp [hx])

/-- Claim C3: when no token's text starts with any registered API's base
URL, the engine outputs every registered API rendered as base URL, slash,
tab, name, in registry order, and nothing else (an empty registry therefore
yields empty output, and the function is total, so no error is produced). -/
theorem complete_fallback_lists_apis (tokens : Tokens) (apis : List ApiSpec)
    (h : ∀ a ∈ apis, tokens.has_token_starting_with a.base_url = false) :
    complete tokens apis = apis.map fun api => api.base_url ++ '/' :: '\t' :: api.name := by
  unfold complete
  rw [findMatch_none tokens apis h]

/-- Claim C2: when the registry scan matches an API and the token under the
cursor starts with that API's base URL, the engine emits every endpoint of
that API in collection order, rendered as base URL, path, tab,
summary-or-path, with no path filtering, and nothing else. -/
theorem complete_base_url_branch (tokens : Tokens) (apis : List ApiSpec)
    (api : ApiSpec) (tok ct : Token)
    (h1 : findMatch tokens apis = some (api, tok))
    (h2 : tokens.current_token = some ct)
    (h3 : api.base_url.isPrefixOf ct.text = true) :
    complete tokens apis =
      api.endpoints.val.map fun ep => ep.fish_complete_format api.base_url := by
  simp [complete, h1, h2, h3, EndPoints.all]

/-- Claim C1: in the parameter branch (an API matched some token but the
cursor token, if any, does not start with its base URL), the base URL is
stripped from the matched token to obtain a path fragment, exactly the
endpoints whose path contains that fragment as a substring are retained in
collection order, and for every parameter of every retained endpoint, in
required-before-optional order, the rendering is emitted unless some token
already starts with the parameter's name. -/
theorem complete_param_branch (tokens : Tokens) (apis : List ApiSpec)
    (api : ApiSpec) (tok : Token)
    (h1 : findMatch tokens apis = some (api, tok))
    (h2 : ∀ ct, tokens.current_token = some ct → api.base_url.isPrefixOf ct.text = false) :
    complete tokens apis =
      ((api.endpoints.val.filter fun ep =>
          containsSub ep.path (tok.text.drop api.base_url.length)).flatMap fun ep =>
        (ep.get_params_sort.filter fun param =>
          !(tokens.has_token_starting_with param.name)).map Param.fish_complete_format) := by
  have hpre := findMatch_some_isPrefixOf tokens apis api tok h1
  cases hct : tokens.current_token with
  | none => simp [complete, h1, hct, completeParams, EndPoints.filter, hpre]
  | some ct => simp [complete, h1, hct, h2 ct hct, completeParams, EndPoints.filter, hpre]

/-! ## Concrete fixtures for the engine claims -/

/-- Shorthand for string literals as character lists. -/
def str (s : String) : Str := s.toList

/-- A required path parameter named id. -/
def idParam : Param := ⟨str "id", true, .path, none⟩

/-- An optional query parameter named q with a description. -/
def qParam : Param := ⟨str "q", false, .query, some (str "search")⟩

/-- GET /pets with no parameters and no summary. -/
def epPets : EndPoint := ⟨.get, str "/pets", none, []⟩

/-- GET /pets/x with a summary and parameters listed optional-first, so the
sorted order differs from the stored order. -/
def epPetsId : EndPoint := ⟨.get, str "/pets/x", some (str "get a pet"), [qParam, idParam]⟩

/-- A one-API registry. -/
def apiPetstore : ApiSpec := ⟨str "petstore", str "https://a.com", ⟨[epPets, epPetsId]⟩⟩

/-- Witness for C3: with the line http and a registry whose base URL occurs
in no token, the output is the API listing line. -/
theorem complete_fallback_lists_apis_witness :
    complete (Tokens.new (str "http ") 5) [apiPetstore] =
      [str "https://a.com/\tpetstore"] := by
  have h := complete_fallback_lists_apis (Tokens.new (str "http ") 5) [apiPetstore]
    (by
      intro a ha
      rw [List.mem_singleton] at ha
      subst ha
      rfl)
  rw [h]
  rfl

/-- Witness for C2: cursor at the end of the base-URL token; both endpoint
path lines are emitted, unfiltered, in collection order. -/
theorem complete_base_url_branch_witness :
    complete (Tokens.new (str "http https://a.com") 18) [apiPetstore] =
      [str "https://a.com/pets\t/pets", str "https://a.com/pets/x\tget a pet"] := by
  have h := complete_base_url_branch (Tokens.new (str "http https://a.com") 18)
    [apiPetstore] apiPetstore ⟨str "https://a.com", 5, 18⟩ ⟨str "https://a.com", 5, 18⟩
    rfl rfl rfl
  rw [h]
  rfl

/-- Witness for C1: cursor past the path token; the parameter renderings of
both matching endpoints are emitted, required before optional. -/
theorem complete_param_branch_witness :
    complete (Tokens.new (str "http https://a.com/pets ") 24) [apiPetstore] =
      [str ":id=\tid", str "q==\t[search]"] := by
  have h := complete_param_branch (Tokens.new (str "http https://a.com/pets ") 24)
    [apiPetstore] apiPetstore ⟨str "https://a.com/pets", 5, 23⟩ rfl
    (by
      intro ct hct
      have hnone : (Tokens.new (str "http https://a.com/pets ") 24).current_token = none := rfl
      rw [hnone] at hct
      exact Option.noConfusion hct)
  rw [h]
  simp only [get_params_sort_eq]
  rfl

/-! ## Tokenizer claims (C5, C6, C7) -/

/-- A line with an unterminated single quote. -/
def lineUnterm : Str := 'a' :: ' ' :: squote :: 'b' :: []

/-- Counterexample to C5 as stated: on the line a-space-quote-b, whose quote
is unterminated, the splitter errors and the tokenizer produces NO tokens,
not a best-effort word list (the word a was producible and is not
produced). -/
theorem tokenize_unterminated_quote_cex :
    splitWords lineUnterm = none
    ∧ (Tokens.new lineUnterm 0).tokens = [] :=
  ⟨rfl, rfl⟩

/-- Claim C5 amended: on any line the splitter rejects (unterminated
quotes), tokenization does not fail: it degrades to the empty token list,
keeping the cursor position. -/
theorem tokenize_split_error_yields_no_tokens (line : Str) (cursor_pos : Nat)
    (h : splitWords line = none) :
    Tokens.new line cursor_pos = ⟨[], cursor_pos⟩ := by
  unfold Tokens.new
  rw [h]
  rfl

/-- Witness for the amended C5 at the concrete unterminated-quote line. -/
theorem tokenize_split_error_yields_no_tokens_witness :
    Tokens.new lineUnterm 4 = ⟨[], 4⟩ :=
  tokenize_split_error_yields_no_tokens lineUnterm 4 rfl

/-- A line with a backslash-escaped space: splitting yields the word
a-space-b, which does not occur verbatim in the line. -/
def lineEsc : Str := 'a' :: '\\' :: ' ' :: 'b' :: []

/-- Counterexample to C6 as stated: the word a-space-b is not found in the
line, and the produced token has start 0 (the previous end) but stop 3, a
length-3 token, not the zero-length token the claim describes. -/
theorem token_offset_degradation_cex :
    findSub lineEsc ('a' :: ' ' :: 'b' :: []) = none
    ∧ (Tokens.new lineEsc 0).tokens = [⟨'a' :: ' ' :: 'b' :: [], 0, 3⟩]
    ∧ ((Tokens.new lineEsc 0).tokens.map fun t => t.stop - t.start) = [3] :=
  ⟨rfl, rfl, rfl⟩

/-- Claim C6 amended: each word's offsets come from searching for its text
in the line from the previous token's end; when the search fails, the start
degrades to the previous token's end and the stop is start plus the word's
length (zero length only for an empty word); when it succeeds at relative
index k, the token spans from previous-end plus k. -/
theorem placeTokens_offsets (line : Str) (pos : Nat) (w : Str) (ws : List Str) :
    (findSub (line.drop pos) w = none →
      placeTokens line pos (w :: ws) =
        ⟨w, pos, pos + w.length⟩ :: placeTokens line (pos + w.length) ws)
    ∧ (∀ k, findSub (line.drop pos) w = some k →
        placeTokens line pos (w :: ws) =
          ⟨w, k + pos, k + pos + w.length⟩ :: placeTokens line (k + pos + w.length) ws) := by
  constructor
  · intro h
    simp [placeTokens, h]
  · intro k h
    simp [placeTokens, h]

/-- Witness for the amended C6 at the concrete escaped-space line: the
unfound word is placed at the previous end (0) with its own length (3). -/
theorem placeTokens_offsets_witness :
    placeTokens lineEsc 0 [('a' :: ' ' :: 'b' :: [])] = [⟨'a' :: ' ' :: 'b' :: [], 0, 3⟩] := by
  have h := (placeTokens_offsets lineEsc 0 ('a' :: ' ' :: 'b' :: []) []).1 rfl
  rw [h]
  rfl

/-- The line a-space-quote-quote: its second word is empty and is placed as
a zero-length token at offset 1, the first token's end. -/
def lineEmptyQuotes : Str := 'a' :: ' ' :: squote :: squote :: []

/-- Counterexample to C7 as stated: with the cursor at 1, TWO tokens'
inclusive spans contain the cursor (countP is 2, not at most 1);
current_token returns the first. -/
theorem cursor_containment_cex :
    (Tokens.new lineEmptyQuotes 1).tokens = [⟨['a'], 0, 1⟩, ⟨[], 1, 1⟩]
    ∧ ((Tokens.new lineEmptyQuotes 1).tokens.countP fun t =>
        decide ((1 : Nat) ≥ t.start) && decide ((1 : Nat) ≤ t.stop)) = 2
    ∧ (Tokens.new lineEmptyQuotes 1).current_token = some ⟨['a'], 0, 1⟩ :=
  ⟨rfl, rfl, rfl⟩

/-- Claim C7 amended: current_token is some token if and only if the cursor
lies in some token's inclusive span, and the returned token is the FIRST
token whose span contains the cursor (earlier tokens do not contain it);
more than one span may contain the cursor, so uniqueness is dropped. -/
theorem current_token_containment (tks : Tokens) :
    ((tks.current_token).isSome = true ↔
      ∃ t ∈ tks.tokens, t.start ≤ tks.cursor_pos ∧ tks.cursor_pos ≤ t.stop)
    ∧ (∀ t, tks.current_token = some t →
        t ∈ tks.tokens ∧ t.start ≤ tks.cursor_pos ∧ tks.cursor_pos ≤ t.stop ∧
        ∃ pre post, tks.tokens = pre ++ t :: post ∧
          ∀ u ∈ pre, ¬(u.start ≤ tks.cursor_pos ∧ tks.cursor_pos ≤ u.stop)) := by
  constructor
  · unfold Tokens.current_token
    rw [List.find?_isSome]
    constructor
    · rintro ⟨t, ht, hp⟩
      simp only [Bool.and_eq_true, decide_eq_true_eq, ge_iff_le] at hp
      exact ⟨t, ht, hp.1, hp.2⟩
    · rintro ⟨t, ht, h1, h2⟩
      exact ⟨t, ht, by simp [h1, h2]⟩
  · intro t ht
    unfold Tokens.current_token at ht
    rw [List.find?_eq_some] at ht
    obtain ⟨hp, as, bs, hsplit, hall⟩ := ht
    simp only [Bool.and_eq_true, decide_eq_true_eq, ge_iff_le] at hp
    refine ⟨by rw [hsplit]; simp, hp.1, hp.2, as, bs, hsplit, ?_⟩
    intro u hu hcontra
    have := hall u hu
    simp only [Bool.not_eq_eq_eq_not, Bool.not_true, Bool.and_eq_false_iff,
      decide_eq_false_iff_not, ge_iff_le] at this
    rcases this with h | h
    · exact h hcontra.1
    · exact h hcontra.2

/-- Witness for the amended C7 on the word-and-cursor line http
example.com with the cursor inside the second word. -/
theorem current_token_containment_witness :
    ((Tokens.new (str "http example.com") 7).current_token).isSome = true :=
  (current_token_containment (Tokens.new (str "http example.com") 7)).1.mpr
    ⟨⟨str "example.com", 5, 16⟩, by decide, by decide, by decide⟩

/-! ## Reference resolution (C4) and request-body extraction (C9, C10) -/

/-- Claim C4: every pointer that does not start with the literal schema
pointer head is rejected with a not-a-schema-reference error (this covers
the empty string, pointers to other component sections, and strings that
contain the head elsewhere but not at the start), and a pointer whose
schemas entry is itself another reference is rejected with not-found rather
than followed.  The function is total by construction, so no input panics. -/
theorem resolve_schema_reference_rejects (reference : Str) (spec : OpenAPI) :
    (schemasHead.isPrefixOf reference = false →
      resolve_schema_reference reference spec = .error .notSchemaRef)
    ∧ (∀ r, schemasHead.isPrefixOf reference = true →
        lookupSchema spec (trimStartMatches schemasHead reference) =
          some (.reference r) →
        resolve_schema_reference reference spec = .error .notFound) := by
  constructor
  · intro h
    unfold resolve_schema_reference
    simp [h]
  · intro r h1 h2
    unfold resolve_schema_reference
    simp [h1, h2]

/-- A components table whose User entry is itself a reference (double
indirection). -/
def specDouble : OpenAPI :=
  ⟨some ⟨[(str "User", .reference (str "#/components/schemas/Base"))]⟩⟩

/-- Witness for C4: the empty pointer and a parameters-section pointer are
rejected as non-schema references; a pointer to a double-indirected schema
entry is rejected as not found. -/
theorem resolve_schema_reference_rejects_witness :
    resolve_schema_reference [] specDouble = .error .notSchemaRef
    ∧ resolve_schema_reference (str "#/components/parameters/id") specDouble =
        .error .notSchemaRef
    ∧ resolve_schema_reference (str "#/components/schemas/User") specDouble =
        .error .notFound :=
  ⟨(resolve_schema_reference_rejects [] specDouble).1 rfl,
   (resolve_schema_reference_rejects (str "#/components/parameters/id") specDouble).1 rfl,
   (resolve_schema_reference_rejects (str "#/components/schemas/User") specDouble).2
     (str "#/components/schemas/Base") rfl rfl⟩

/-- The property name of scenario D. -/
def nameProp : Str := str "name"

/-- A plain string-typed schema (a non-object type). -/
def stringSchema : Schema := .mk ⟨none⟩ (.type .nonObject)

/-- The object type of scenario D: one property name of string type,
required. -/
def objSchemaD : ObjectType := .mk [(nameProp, .item stringSchema)] [nameProp]

/-- The request-body schema of scenario D. -/
def schemaD : Schema := .mk ⟨none⟩ (.type (.object objSchemaD))

/-- The request body of scenario D: application/json carrying schemaD. -/
def bodyD : RequestBody := ⟨[(appJson, ⟨some (.item schemaD)⟩)]⟩

/-- A document with no components section. -/
def specNoComponents : OpenAPI := ⟨none⟩

/-- Claim C9: a direct request body whose application/json media type
carries a direct object schema yields one Body-sourced Param per direct
property, required exactly when the name is listed in required, with the
description of a direct property schema and none for a referenced property;
a direct non-object schema yields no parameters; a referenced request body
yields no parameters; and the scenario-D schema (object, one string
property name, required) yields exactly one required Body Param named
name. -/
theorem request_body_params_characterization (spec : OpenAPI)
    (body : RequestBody) (mt : MediaType) (s : Schema) (o : ObjectType) (r : Str) :
    ((body.content.find? fun kv => kv.fst = appJson).map Prod.snd = some mt →
      mt.schema = some (.item s) →
      s.schema_kind = .type (.object o) →
      extract_request_body_parameters (.item body) spec =
        o.properties.map (paramOfProperty o))
    ∧ ((body.content.find? fun kv => kv.fst = appJson).map Prod.snd = some mt →
        mt.schema = some (.item s) →
        (∀ ob, s.schema_kind ≠ .type (.object ob)) →
        extract_request_body_parameters (.item body) spec = [])
    ∧ extract_request_body_parameters (.reference r) spec = []
    ∧ extract_request_body_parameters (.item bodyD) specNoComponents =
        [⟨nameProp, true, .body, none⟩] := by
  refine ⟨?_, ?_, rfl, rfl⟩
  · intro h1 h2 h3
    simp [extract_request_body_parameters, h1, h2, extract_schema_parameters,
      Param.try_from_schema, h3, Except.toOption]
  · intro h1 h2 hno
    cases hk : s.schema_kind with
    | type t =>
      cases t with
      | object ob => exact absurd hk (hno ob)
      | nonObject =>
        simp [extract_request_body_parameters, h1, h2, extract_schema_parameters,
          Param.try_from_schema, hk, Except.toOption]
    | other =>
      simp [extract_request_body_parameters, h1, h2, extract_schema_parameters,
        Param.try_from_schema, hk, Except.toOption]

/-- Witness for C9 discharging the direct-object hypotheses at scenario D's
concrete body. -/
theorem request_body_params_characterization_witness :
    extract_request_body_parameters (.item bodyD) specNoComponents =
      [⟨nameProp, true, .body, none⟩] := by
  have h := (request_body_params_characterization specNoComponents bodyD
    ⟨some (.item schemaD)⟩ schemaD objSchemaD (str "x")).1 rfl rfl rfl
  rw [h]
  rfl

/-- Claim C10: a referenced parameter contributes at most one Param (the
return type is an Option): the pointer is dereferenced through the schemas
section; when the resolved schema is an object type, only the head of its
property list becomes a Param, tagged with source Body (paramOfProperty
always tags Body) regardless of the declared parameter location; when the
resolved schema is not an object type, or resolution fails, nothing is
contributed. -/
theorem referenced_parameter_characterization (reference : Str) (spec : OpenAPI)
    (s : Schema) (o : ObjectType) :
    (resolve_schema_reference reference spec = .ok s →
      s.schema_kind = .type (.object o) →
      extract_referenced_parameter reference spec =
        (o.properties.head?).map (paramOfProperty o))
    ∧ (resolve_schema_reference reference spec = .ok s →
        (∀ ob, s.schema_kind ≠ .type (.object ob)) →
        extract_referenced_parameter reference spec = none)
    ∧ (∀ err, resolve_schema_reference reference spec = .error err →
        extract_referenced_parameter reference spec = none) := by
  refine ⟨?_, ?_, ?_⟩
  · intro h1 h2
    simp [extract_referenced_parameter, h1, Param.try_from_schema, h2, List.head?_map]
  · intro h1 hno
    cases hk : s.schema_kind with
    | type t =>
      cases t with
      | object ob => exact absurd hk (hno ob)
      | nonObject =>
        simp [extract_referenced_parameter, h1, Param.try_from_schema, hk]
    | other =>
      simp [extract_referenced_parameter, h1, Param.try_from_schema, hk]
  · intro err h
    simp [extract_referenced_parameter, h]

/-- A components table binding Pagination to the scenario-D object schema. -/
def specRef : OpenAPI := ⟨some ⟨[(str "Pagination", .item schemaD)]⟩⟩

/-- Witness for C10: dereferencing the Pagination pointer yields exactly the
first property as a Body-sourced Param. -/
theorem referenced_parameter_characterization_witness :
    extract_referenced_parameter (str "#/components/schemas/Pagination") specRef =
      some ⟨nameProp, true, .body, none⟩ := by
  have h := (referenced_parameter_characterization
    (str "#/components/schemas/Pagination") specRef schemaD objSchemaD).1 rfl rfl
  rw [h]
  rfl

end HttpieOapi
